import Mathlib

/-!
Verification of the tic-tac-toe realtime server (src/index.js).

The source file contains two revisions of the server; the embedding below
follows the second, identity-keyed revision (the spec's target variant):
`emptyState`, `calculateWinner`, `ensureRoom` and the `joinRoom`, `move`,
`reset`, `leaveRoom` and `disconnect` socket handlers, lines 259-479.

JavaScript objects used as insertion-ordered string-keyed maps are embedded
as association lists (`List (String × α)`); `null`/absent values become
`Option`; the handlers become pure functions from (registry, connection
binding, event payload) to (new registry, emitted messages).  The scoreboard
described by the spec is absent from src/ and is modelled from the spec where
a claim needs it (each such definition is marked `Modelled from the spec:`).
-/

set_option maxHeartbeats 1000000

namespace TicTacToe

/-- A cell symbol: the strings "X" and "O" of the source. -/
inductive Sym
  | X
  | O
deriving DecidableEq, Repr, Fintype

/-- The ternary `room.currentPlayer === "X" ? "O" : "X"` of the source. -/
def Sym.other : Sym → Sym
  | .X => .O
  | .O => .X

/-- Non-null values of `room.winner`: "X", "O" or "draw". -/
inductive Winner
  | sym (s : Sym)
  | draw
deriving DecidableEq, Repr

/-- A board is the 9-element array of cells, each null ("empty") or a symbol. -/
abbrev Board := List (Option Sym)

/-- A triple of board positions, as in the `lines` table. -/
abbrev Triple := Nat × Nat × Nat

/-- The `lines` table of `calculateWinner`: 3 rows, 3 columns, 2 diagonals. -/
def linesList : List Triple :=
  [(0, 1, 2), (3, 4, 5), (6, 7, 8), (0, 3, 6), (1, 4, 7), (2, 5, 8), (0, 4, 8), (2, 4, 6)]

/-- Return value of `calculateWinner` when not null. -/
structure WinResult where
  winner : Winner
  line : Option Triple
deriving DecidableEq, Repr

/-- The `for (const [a, b, c] of lines)` loop of `calculateWinner`: the first
triple whose three cells hold the same non-null symbol, with that symbol. -/
def winnerLoop (b : Board) : List Triple → Option (Sym × Triple)
  | [] => none
  | t :: rest =>
    match b.getD t.1 none with
    | some s =>
      if b.getD t.2.1 none = some s ∧ b.getD t.2.2 none = some s then some (s, t)
      else winnerLoop b rest
    | none => winnerLoop b rest

/-- `calculateWinner(board)` of the source: first winning line if any, else
`draw` when every cell is non-null (`board.every(Boolean)`), else null. -/
def calculateWinner (b : Board) : Option WinResult :=
  match winnerLoop b linesList with
  | some (s, t) => some ⟨Winner.sym s, some t⟩
  | none => if b.all (fun c => c.isSome) then some ⟨Winner.draw, none⟩ else none

/-- A triple whose three cells are equal and non-empty (the spec's wording). -/
def winTriple (b : Board) (t : Triple) : Prop :=
  ∃ s : Sym, b.getD t.1 none = some s ∧ b.getD t.2.1 none = some s ∧ b.getD t.2.2 none = some s

instance (b : Board) (t : Triple) : Decidable (winTriple b t) := by
  unfold winTriple; infer_instance

/-- The spec's description of `evaluate` (spec section 4.1), written from the
spec's words: find the first of the 8 winning triples whose three cells are
equal and non-empty and report that symbol and triple; if none exists and all
cells are non-empty report a draw; otherwise report no outcome. -/
def specEvaluate (b : Board) : Option WinResult :=
  match linesList.find? (fun t => decide (winTriple b t)) with
  | some t =>
    match b.getD t.1 none with
    | some s => some ⟨Winner.sym s, some t⟩
    | none => none
  | none => if b.all (fun c => c.isSome) then some ⟨Winner.draw, none⟩ else none

/-- The board of spec section 8: `[X,X,X,_,O,O,_,_,_]`. -/
def demoBoard : Board :=
  [some Sym.X, some Sym.X, some Sym.X, none, some Sym.O, some Sym.O, none, none, none]

/-- One participant entry of `room.players`: symbol (null = spectator) and the
most recent socket id for the identity. -/
structure Player where
  symbol : Option Sym
  socketId : String
deriving DecidableEq, Repr

/-- Lookup in a JavaScript object viewed as an insertion-ordered association
list: `obj[key]`, null when absent. -/
def alookup {α : Type} : List (String × α) → String → Option α
  | [], _ => none
  | (k, v) :: rest, u => if k = u then some v else alookup rest u

/-- In-place update of the value at an existing key (`obj[key].field = v`);
no change when the key is absent. -/
def aset {α : Type} : List (String × α) → String → (α → α) → List (String × α)
  | [], _, _ => []
  | (k, v) :: rest, u, f => if k = u then (k, f v) :: rest else (k, v) :: aset rest u f

/-- Deletion of a key (`delete obj[key]`, `map.delete(key)`). -/
def eraseKey {α : Type} : List (String × α) → String → List (String × α)
  | [], _ => []
  | (k, v) :: rest, u => if k = u then eraseKey rest u else (k, v) :: eraseKey rest u

/-- The per-room state object of the source (second revision, lines 259-268). -/
structure RoomState where
  board : Board
  currentPlayer : Sym
  winner : Option Winner
  line : Option Triple
  players : List (String × Player)
  adminId : Option String
deriving DecidableEq, Repr

/-- `emptyState()` of the source. -/
def emptyState : RoomState :=
  { board := List.replicate 9 none
    currentPlayer := Sym.X
    winner := none
    line := none
    players := []
    adminId := none }

/-- `room.players[uid].symbol`, null when the identity is not a participant. -/
def symOf (ps : List (String × Player)) (u : String) : Option Sym :=
  (alookup ps u).bind Player.symbol

/-- Room-level effect of the `joinRoom` handler (lines 303-342): a new identity
is appended with symbol X if unheld, else O if unheld, else null (spectator),
and becomes admin when the room has none; a known identity only gets its
socket id refreshed. -/
def joinCore (r : RoomState) (uid sid : String) : RoomState :=
  match alookup r.players uid with
  | none =>
    let symbols := r.players.map (fun e => e.2.symbol)
    let mySymbol : Option Sym :=
      if some Sym.X ∉ symbols then some Sym.X
      else if some Sym.O ∉ symbols then some Sym.O
      else none
    let players2 := r.players ++ [(uid, ⟨mySymbol, sid⟩)]
    let adminId2 := if r.adminId = none then some uid else r.adminId
    { r with players := players2, adminId := adminId2 }
  | some _ =>
    { r with players := aset r.players uid (fun p => { p with socketId := sid }) }

/-- The mutation performed by an accepted move (lines 358-365): write the
symbol, then either record the outcome or flip the turn. -/
def applyMoveBody (r : RoomState) (s : Sym) (idx : Nat) : RoomState :=
  let board2 := r.board.set idx (some s)
  match calculateWinner board2 with
  | some res => { r with board := board2, winner := some res.winner, line := res.line }
  | none => { r with board := board2, currentPlayer := r.currentPlayer.other }

/-- Room-level effect of the `move` handler (lines 344-376): null when the
guard of lines 350-356 rejects the move (silent no-op), otherwise the mutated
room. -/
def moveCore (r : RoomState) (uid : String) (idx : Nat) : Option RoomState :=
  match alookup r.players uid with
  | none => none
  | some p =>
    match p.symbol with
    | none => none
    | some s =>
      if r.winner.isSome then none
      else if r.board.get? idx ≠ some none then none
      else if r.currentPlayer ≠ s then none
      else some (applyMoveBody r s idx)

/-- `room.players[uid].symbol === "X" || room.players[uid].symbol === "O"`. -/
def isActive (ps : List (String × Player)) (u : String) : Bool :=
  decide (symOf ps u = some Sym.X) || decide (symOf ps u = some Sym.O)

/-- Assignment `room.players[uid].symbol = s`. -/
def setSym (ps : List (String × Player)) (u : String) (s : Option Sym) :
    List (String × Player) :=
  aset ps u (fun p => { p with symbol := s })

/-- The role rotation block of the `reset` handler (lines 395-414): when the
room has at least two participants and the previous outcome was a decisive
win, the first active holder of the winning symbol (if any) becomes X and the
first active participant different from it (if any) becomes O. -/
def rotatePlayers (ps : List (String × Player)) (lastW : Option Winner) :
    List (String × Player) :=
  if 2 ≤ ps.length then
    match lastW with
    | some (Winner.sym w) =>
      let actives := (ps.map Prod.fst).filter (fun u => isActive ps u)
      let winnerId := actives.find? (fun u => decide (symOf ps u = some w))
      let loserId := actives.find? (fun u => decide (winnerId ≠ some u))
      let ps1 := match winnerId with
        | some wi => setSym ps wi (some Sym.X)
        | none => ps
      match loserId with
      | some li => setSym ps1 li (some Sym.O)
      | none => ps1
    | _ => ps
  else ps

/-- Lines 390-393: clear the board, turn X, no winner, no line. -/
def clearRoom (r : RoomState) : RoomState :=
  { r with
    board := List.replicate 9 none
    currentPlayer := Sym.X
    winner := none
    line := none }

/-- The state produced by an accepted reset: cleared board state with the
role rotation applied against the previous winner. -/
def resetApplied (r : RoomState) : RoomState :=
  { clearRoom r with players := rotatePlayers r.players r.winner }

/-- Room-level effect of the `reset` handler (lines 378-434): null (silent
no-op) unless the caller is the admin; otherwise clear the board state and
apply the role rotation against the previous winner. -/
def resetCore (r : RoomState) (uid : String) : Option RoomState :=
  if r.adminId = some uid then some (resetApplied r) else none

/-- Room-level effect of the `leaveRoom` handler (lines 436-469): delete the
identity; when it was the admin, promote the first remaining participant (or
clear the admin). -/
def leaveCore (r : RoomState) (uid : String) : RoomState :=
  let players2 := eraseKey r.players uid
  let adminId2 :=
    if r.adminId = some uid then (players2.head?).map Prod.fst else r.adminId
  { r with players := players2, adminId := adminId2 }

/-- Modelled from the spec: the per-room scoreboard (per-identity win counts
plus a draw counter) of spec sections 3 and 4.3 is absent from the code in
src/; its shape is taken from the spec's words. -/
structure Scoreboard where
  wins : List (String × Nat)
  draws : Nat
deriving DecidableEq, Repr

/-- Modelled from the spec: the zero scoreboard of a fresh room. -/
def emptySB : Scoreboard := ⟨[], 0⟩

/-- Win count of an identity, zero when no entry exists. -/
def winCount (sb : Scoreboard) (u : String) : Nat := (alookup sb.wins u).getD 0

/-- Modelled from the spec: increment an identity's win entry, creating it at
one when absent (entries are otherwise created at zero on join). -/
def bumpWin : List (String × Nat) → String → List (String × Nat)
  | [], u => [(u, 1)]
  | (k, n) :: rest, u => if k = u then (k, n + 1) :: rest else (k, n) :: bumpWin rest u

/-- The first participant currently holding a symbol, if any. -/
def holderOf (ps : List (String × Player)) (s : Sym) : Option String :=
  (ps.find? (fun e => decide (e.2.symbol = some s))).map Prod.fst

/-- Modelled from the spec: "If a winner/draw results, set `outcome`
accordingly and increment the scoreboard (winner's identity by one win, or
the draw counter)" (spec section 4.3, Move). -/
def scoreOutcome (sb : Scoreboard) (ps : List (String × Player)) (w : Winner) :
    Scoreboard :=
  match w with
  | .sym s =>
    match holderOf ps s with
    | some u => { sb with wins := bumpWin sb.wins u }
    | none => sb
  | .draw => { sb with draws := sb.draws + 1 }

/-- A room's full session state: the code's room object plus the scoreboard
that exists only in the spec. -/
structure RoomStateS where
  room : RoomState
  sb : Scoreboard
deriving DecidableEq, Repr

/-- Fresh full state: `emptyState()` plus a zero scoreboard. -/
def emptyS : RoomStateS := ⟨emptyState, emptySB⟩

/-- Modelled from the spec: "Ensure a zero scoreboard entry for this identity"
(spec section 4.3, Join). -/
def ensureZero (sb : Scoreboard) (u : String) : Scoreboard :=
  if (alookup sb.wins u).isSome then sb else { sb with wins := sb.wins ++ [(u, 0)] }

/-- Join on the full state: the code's `joinCore` on the room; the scoreboard
side is modelled from the spec (zero entry for a new identity, untouched on a
reconnect, which per the spec updates the connection id only). -/
def joinS (rs : RoomStateS) (uid sid : String) : RoomStateS :=
  { room := joinCore rs.room uid sid,
    sb := match alookup rs.room.players uid with
          | none => ensureZero rs.sb uid
          | some _ => rs.sb }

/-- Full-state effect of an accepted move: the code's mutation plus the
spec-modelled score update when an outcome was produced. -/
def msApplied (rs : RoomStateS) (s : Sym) (idx : Nat) : RoomStateS :=
  { room := applyMoveBody rs.room s idx,
    sb := match (applyMoveBody rs.room s idx).winner with
          | some w => scoreOutcome rs.sb rs.room.players w
          | none => rs.sb }

/-- Move on the full state: the code's `moveCore`, with the spec-modelled
scoreboard update on a produced outcome. -/
def moveS (rs : RoomStateS) (uid : String) (idx : Nat) : Option RoomStateS :=
  match moveCore rs.room uid idx with
  | some r =>
    some { room := r,
           sb := match r.winner with
                 | some w => scoreOutcome rs.sb rs.room.players w
                 | none => rs.sb }
  | none => none

/-- Reset on the full state: the code's `resetCore`; scores persist. -/
def resetS (rs : RoomStateS) (uid : String) : Option RoomStateS :=
  (resetCore rs.room uid).map (fun r => { room := r, sb := rs.sb })

/-- Leave on the full state: the code's `leaveCore`; per the spec, scoreboard
entries are never removed while the room lives. -/
def leaveS (rs : RoomStateS) (uid : String) : RoomStateS :=
  { room := leaveCore rs.room uid, sb := rs.sb }

/-- Modelled from the spec: the privileged override (`cheat`) actions of spec
section 4.3, which have no handler in the code in src/.  `fillRandom` carries
the injected random choice (spec section 9) as an index into the list of
empty cells. -/
inductive CheatAction
  | forceWin (s : Sym)
  | forceDraw
  | clearScores
  | skipTurn
  | clearBoard
  | fillRandom (pick : Nat)
deriving DecidableEq, Repr

/-- Indices of empty cells of a board. -/
def emptyCells (b : Board) : List Nat :=
  (List.range b.length).filter (fun i => decide (b.get? i = some none))

/-- Modelled from the spec: the effect of each privileged override action
(spec section 4.3, PrivilegedOverride). -/
def applyCheat (rs : RoomStateS) (act : CheatAction) : RoomStateS :=
  match act with
  | .forceWin s =>
    { room := { rs.room with winner := some (Winner.sym s), line := none },
      sb := match holderOf rs.room.players s with
            | some u => { rs.sb with wins := bumpWin rs.sb.wins u }
            | none => rs.sb }
  | .forceDraw =>
    { room := { rs.room with winner := some Winner.draw },
      sb := { rs.sb with draws := rs.sb.draws + 1 } }
  | .clearScores =>
    { rs with sb := { wins := rs.room.players.map (fun e => (e.1, 0)), draws := 0 } }
  | .skipTurn =>
    { rs with room := { rs.room with currentPlayer := rs.room.currentPlayer.other } }
  | .clearBoard =>
    { rs with
      room := { rs.room with
        board := List.replicate 9 none
        winner := none
        line := none } }
  | .fillRandom pick =>
    let cells := emptyCells rs.room.board
    if cells ≠ [] ∧ rs.room.winner = none then
      msApplied rs rs.room.currentPlayer (cells.getD (pick % cells.length) 0)
    else rs

/-- Modelled from the spec: "Reject silently unless identity equals
`adminIdentity`" (spec section 4.3, PrivilegedOverride). -/
def cheatS (rs : RoomStateS) (uid : String) (act : CheatAction) : Option RoomStateS :=
  if rs.room.adminId = some uid then some (applyCheat rs act) else none

/-- The `rooms` map of the source: room id to full room state. -/
abbrev Registry := List (String × RoomStateS)

/-- `rooms.set(roomId, v)`: update in place, else append. -/
def regSet (reg : Registry) (rid : String) (v : RoomStateS) : Registry :=
  if (alookup reg rid).isSome then aset reg rid (fun _ => v) else reg ++ [(rid, v)]

/-- The per-connection session binding: `socket.id`, `joinedRoom`, `myUserId`. -/
structure Conn where
  sid : String
  joinedRoom : Option String
  myUserId : Option String
deriving DecidableEq, Repr

/-- The payload of the room-wide `state` broadcast (board, turn, winner, line,
and the non-null symbols of the participants). -/
structure StateView where
  board : Board
  currentPlayer : Sym
  winner : Option Winner
  line : Option Triple
  players : List Sym
deriving DecidableEq, Repr

/-- Serialize a room into the `state` broadcast payload. -/
def roomView (r : RoomState) : StateView :=
  ⟨r.board, r.currentPlayer, r.winner, r.line, r.players.filterMap (fun e => e.2.symbol)⟩

/-- An outbound message: a private `joined` message to one socket, or the
`state` broadcast to a room. -/
inductive Emit
  | joinedMsg (target : String) (symbol : Option Sym) (isAdmin : Bool)
  | stateMsg (roomId : String) (view : StateView)
deriving DecidableEq, Repr

/-- The per-participant `joined` refresh loop of the `reset` and `leaveRoom`
handlers. -/
def assignEmits (r : RoomState) : List Emit :=
  r.players.map (fun e => Emit.joinedMsg e.2.socketId e.2.symbol (decide (r.adminId = some e.1)))

/-- The `joinRoom` handler (lines 303-342): bind the connection, ensure the
room, join, and emit the private `joined` message plus the `state` broadcast. -/
def joinRoomE (reg : Registry) (c : Conn) (roomId userId : String) :
    Registry × Conn × List Emit :=
  let c2 : Conn := { c with joinedRoom := some roomId, myUserId := some userId }
  let rs := (alookup reg roomId).getD emptyS
  let rs2 := joinS rs userId c.sid
  (regSet reg roomId rs2, c2,
    [Emit.joinedMsg c.sid (symOf rs2.room.players userId)
        (decide (rs2.room.adminId = some userId)),
     Emit.stateMsg roomId (roomView rs2.room)])

/-- The `move` handler (lines 344-376): silent no-op unless the connection is
bound to an existing room and the room-level move is accepted. -/
def moveE (reg : Registry) (c : Conn) (idx : Nat) : Registry × List Emit :=
  match c.joinedRoom, c.myUserId with
  | some rid, some uid =>
    match alookup reg rid with
    | some rs =>
      match moveS rs uid idx with
      | some rs2 => (regSet reg rid rs2, [Emit.stateMsg rid (roomView rs2.room)])
      | none => (reg, [])
    | none => (reg, [])
  | _, _ => (reg, [])

/-- The `reset` handler (lines 378-434): silent no-op unless bound, the room
exists and the caller is the admin; on success broadcast the state and refresh
every participant's `joined` message. -/
def resetE (reg : Registry) (c : Conn) : Registry × List Emit :=
  match c.joinedRoom, c.myUserId with
  | some rid, some uid =>
    match alookup reg rid with
    | some rs =>
      match resetS rs uid with
      | some rs2 =>
        (regSet reg rid rs2, Emit.stateMsg rid (roomView rs2.room) :: assignEmits rs2.room)
      | none => (reg, [])
    | none => (reg, [])
  | _, _ => (reg, [])

/-- The `leaveRoom` handler (lines 436-469): remove the identity; delete the
room when it became empty (no broadcast), otherwise broadcast and refresh. -/
def leaveE (reg : Registry) (c : Conn) : Registry × List Emit :=
  match c.joinedRoom, c.myUserId with
  | some rid, some uid =>
    match alookup reg rid with
    | some rs =>
      let rs2 := leaveS rs uid
      if rs2.room.players.length = 0 then
        (eraseKey reg rid, [])
      else
        (regSet reg rid rs2, Emit.stateMsg rid (roomView rs2.room) :: assignEmits rs2.room)
    | none => (reg, [])
  | _, _ => (reg, [])

/-- Modelled from the spec: the transport wrapper of the privileged override,
scoped like the other handlers to the sending connection's binding. -/
def cheatE (reg : Registry) (c : Conn) (act : CheatAction) : Registry × List Emit :=
  match c.joinedRoom, c.myUserId with
  | some rid, some uid =>
    match alookup reg rid with
    | some rs =>
      match cheatS rs uid act with
      | some rs2 => (regSet reg rid rs2, [Emit.stateMsg rid (roomView rs2.room)])
      | none => (reg, [])
    | none => (reg, [])
  | _, _ => (reg, [])

/-- The `disconnect` handler of the second revision (lines 471-474): it only
logs; participants are removed only by an explicit `leaveRoom`. -/
def disconnectE (reg : Registry) (_c : Conn) : Registry × List Emit := (reg, [])

/-- Fold a sequence of first-time joins into a fresh room. -/
def joinAll (us : List (String × String)) : RoomState :=
  us.foldl (fun r e => joinCore r e.1 e.2) emptyState

/-- Role received by the i-th first-time joiner of a fresh room. -/
def patternRoles : Nat → Option Sym
  | 0 => some Sym.X
  | 1 => some Sym.O
  | _ => none

/-- Expected participant list after a sequence of distinct first-time joins,
the i-th entry carrying `patternRoles i`. -/
def expectedPlayers : Nat → List (String × String) → List (String × Player)
  | _, [] => []
  | i, e :: rest => (e.1, ⟨patternRoles i, e.2⟩) :: expectedPlayers (i + 1) rest

/-- Room states reachable from the fresh state by join, move, reset, leave. -/
inductive Reachable : RoomState → Prop
  | init : Reachable emptyState
  | join (r : RoomState) (uid sid : String) : Reachable r → Reachable (joinCore r uid sid)
  | move (r r2 : RoomState) (uid : String) (idx : Nat) :
      Reachable r → moveCore r uid idx = some r2 → Reachable r2
  | reset (r r2 : RoomState) (uid : String) :
      Reachable r → resetCore r uid = some r2 → Reachable r2
  | leave (r : RoomState) (uid : String) : Reachable r → Reachable (leaveCore r uid)

/-- At most one identity holds the symbol. -/
def AtMostOne (ps : List (String × Player)) (s : Sym) : Prop :=
  ∀ u v, symOf ps u = some s → symOf ps v = some s → u = v

/-- Apply a move, keeping the state on rejection (used to build samples). -/
def moveStep (r : RoomState) (uid : String) (idx : Nat) : RoomState :=
  (moveCore r uid idx).getD r

/-- Sample mid-game room: players a (X, to move) and b (O); X wins by playing
cell 2. -/
def roomAB : RoomState :=
  { board := [some Sym.X, some Sym.X, none, some Sym.O, some Sym.O, none, none, none, none]
    currentPlayer := Sym.X
    winner := none
    line := none
    players := [("a", ⟨some Sym.X, "s1"⟩), ("b", ⟨some Sym.O, "s2"⟩)]
    adminId := some "a" }

/-- Sample full state for `roomAB` with zero scores. -/
def rsAB : RoomStateS := ⟨roomAB, ⟨[("a", 0), ("b", 0)], 0⟩⟩

/-- Sample registry holding `rsAB` under room id "room1". -/
def regAB : Registry := [("room1", rsAB)]

/-- Connection of identity a in room "room1". -/
def connA : Conn := ⟨"s1", some "room1", some "a"⟩

/-- Connection of identity b (not the admin) in room "room1". -/
def connB : Conn := ⟨"s2", some "room1", some "b"⟩

/-- Sample distinct first-time join sequence. -/
def usABC : List (String × String) := [("a", "s1"), ("b", "s2"), ("c", "s3")]

/-- Room built by three first-time joins (a gets X and admin, b gets O, c
spectates). -/
def c9state : RoomState :=
  joinCore (joinCore (joinCore emptyState "a" "s1") "b" "s2") "c" "s3"

/-- A reachable room exercising the reset rotation corner case: a (X, admin),
b (O) and spectator c join; b wins on the O line 0-1-2; then b leaves.  The
room keeps `winner = O` but only a single active role remains. -/
def c4state : RoomState :=
  leaveCore
    (moveStep (moveStep (moveStep (moveStep (moveStep (moveStep
      (joinCore (joinCore (joinCore emptyState "a" "s1") "b" "s2") "c" "s3")
      "a" 3) "b" 0) "a" 4) "b" 1) "a" 7) "b" 2) "b"

/-- The room after the admin a resets `c4state`. -/
def c4after : RoomState := (resetCore c4state "a").getD c4state

/-- Registry with a single-participant room "roomz" owned by z. -/
def regSolo : Registry := [("roomz", joinS emptyS "z" "s7")]

/-- Connection of identity z in room "roomz". -/
def connZ : Conn := ⟨"s7", some "roomz", some "z"⟩

end TicTacToe

namespace TicTacToe

theorem alookup_append_of_some {α : Type} {l : List (String × α)} {u : String} {v : α}
    (l2 : List (String × α)) (h : alookup l u = some v) :
    alookup (l ++ l2) u = some v := by
  induction l with
  | nil => exact Option.noConfusion h
  | cons e rest ih =>
    obtain ⟨k, w⟩ := e
    by_cases hk : k = u
    · simp only [alookup, if_pos hk] at h ⊢
      exact h
    · simp only [alookup, if_neg hk] at h ⊢
      exact ih h

theorem alookup_append_of_none {α : Type} {l : List (String × α)} {u : String}
    (l2 : List (String × α)) (h : alookup l u = none) :
    alookup (l ++ l2) u = alookup l2 u := by
  induction l with
  | nil => rfl
  | cons e rest ih =>
    obtain ⟨k, w⟩ := e
    by_cases hk : k = u
    · simp only [alookup, if_pos hk] at h
      exact Option.noConfusion h
    · simp only [alookup, if_neg hk] at h ⊢
      exact ih h

theorem alookup_aset {α : Type} (l : List (String × α)) (u : String) (f : α → α)
    (v : String) :
    alookup (aset l u f) v = if v = u then (alookup l u).map f else alookup l v := by
  induction l with
  | nil => by_cases hv : v = u <;> simp [aset, alookup, hv]
  | cons e rest ih =>
    obtain ⟨k, w⟩ := e
    by_cases hk : k = u
    · subst hk
      by_cases hv : v = k
      · subst hv
        simp [aset, alookup]
      · have h1 : ¬ (k = v) := fun hh => hv hh.symm
        simp [aset, alookup, hv, h1]
    · by_cases hv : v = k
      · subst hv
        have h2 : ¬ (v = u) := fun hh => hk (hh ▸ rfl)
        simp [aset, alookup, hk, h2]
      · have h3 : ¬ (k = v) := fun hh => hv hh.symm
        simp only [aset, if_neg hk, alookup, if_neg h3]
        exact ih

theorem alookup_eraseKey {α : Type} (l : List (String × α)) (u v : String) :
    alookup (eraseKey l u) v = if v = u then none else alookup l v := by
  induction l with
  | nil => by_cases hv : v = u <;> simp [eraseKey, alookup, hv]
  | cons e rest ih =>
    obtain ⟨k, w⟩ := e
    by_cases hk : k = u
    · subst hk
      rw [show eraseKey ((k, w) :: rest) k = eraseKey rest k by simp [eraseKey], ih]
      by_cases hv : v = k
      · simp [hv]
      · have h1 : ¬ (k = v) := fun hh => hv hh.symm
        simp [hv, alookup, h1]
    · rw [show eraseKey ((k, w) :: rest) u = (k, w) :: eraseKey rest u by
        simp [eraseKey, hk]]
      simp only [alookup]
      by_cases hv : k = v
      · have h2 : ¬ (v = u) := fun hh => hk (hv.trans hh)
        rw [if_pos hv, if_neg h2, if_pos hv]
      · rw [if_neg hv, ih]
        by_cases hvu : v = u
        · simp [hvu]
        · simp [hvu, hv]

theorem mem_keys_of_alookup {α : Type} {l : List (String × α)} {u : String} {v : α}
    (h : alookup l u = some v) : u ∈ l.map Prod.fst := by
  induction l with
  | nil => exact Option.noConfusion h
  | cons e rest ih =>
    obtain ⟨k, w⟩ := e
    by_cases hk : k = u
    · simp [hk]
    · simp only [alookup, if_neg hk] at h
      simp [ih h]

theorem alookup_isSome_of_mem_keys {α : Type} {l : List (String × α)} {u : String}
    (h : u ∈ l.map Prod.fst) : (alookup l u).isSome := by
  induction l with
  | nil => simp at h
  | cons e rest ih =>
    obtain ⟨k, w⟩ := e
    by_cases hk : k = u
    · simp [alookup, hk]
    · simp only [List.map, List.mem_cons] at h
      rcases h with h | h
      · exact absurd h.symm hk
      · simp only [alookup, if_neg hk]
        exact ih h

theorem alookup_eq_none_of_not_mem {α : Type} {l : List (String × α)} {u : String}
    (h : u ∉ l.map Prod.fst) : alookup l u = none := by
  cases ha : alookup l u with
  | none => rfl
  | some v => exact absurd (mem_keys_of_alookup ha) h

theorem snd_mem_of_alookup {α : Type} {l : List (String × α)} {u : String} {v : α}
    (h : alookup l u = some v) : v ∈ l.map Prod.snd := by
  induction l with
  | nil => exact Option.noConfusion h
  | cons e rest ih =>
    obtain ⟨k, w⟩ := e
    by_cases hk : k = u
    · simp only [alookup, if_pos hk, Option.some.injEq] at h
      simp [h]
    · simp only [alookup, if_neg hk] at h
      simp [ih h]

theorem keys_aset {α : Type} (l : List (String × α)) (u : String) (f : α → α) :
    (aset l u f).map Prod.fst = l.map Prod.fst := by
  induction l with
  | nil => rfl
  | cons e rest ih =>
    obtain ⟨k, w⟩ := e
    by_cases hk : k = u
    · simp [aset, hk]
    · simp [aset, hk, ih]

theorem find?_eq_some_of_unique {α : Type} {p : α → Bool} {l : List α} {a : α}
    (hmem : a ∈ l) (hpa : p a = true) (huniq : ∀ b ∈ l, p b = true → b = a) :
    l.find? p = some a := by
  induction l with
  | nil => simp at hmem
  | cons x rest ih =>
    by_cases hx : p x = true
    · have : x = a := huniq x (List.mem_cons_self x rest) hx
      subst this
      simp [List.find?, hx]
    · have hxf : p x = false := Bool.eq_false_iff.mpr hx
      simp only [List.find?, hxf]
      have hmem2 : a ∈ rest := by
        rcases List.mem_cons.mp hmem with h | h
        · subst h
          exact absurd hpa hx
        · exact h
      exact ih hmem2 (fun b hb hpb => huniq b (List.mem_cons_of_mem x hb) hpb)

theorem alookup_bumpWin_self (ws : List (String × Nat)) (u : String) :
    alookup (bumpWin ws u) u = some ((alookup ws u).getD 0 + 1) := by
  induction ws with
  | nil => simp [bumpWin, alookup]
  | cons e rest ih =>
    obtain ⟨k, n⟩ := e
    by_cases hk : k = u
    · simp [bumpWin, alookup, hk]
    · simp only [bumpWin, if_neg hk, alookup, if_neg hk]
      exact ih

theorem alookup_bumpWin_other (ws : List (String × Nat)) (u v : String) (h : v ≠ u) :
    alookup (bumpWin ws u) v = alookup ws v := by
  have h1 : ¬ (u = v) := fun hh => h hh.symm
  induction ws with
  | nil => simp [bumpWin, alookup, h1]
  | cons e rest ih =>
    obtain ⟨k, n⟩ := e
    by_cases hk : k = u
    · subst hk
      simp [bumpWin, alookup, h1]
    · by_cases hv : k = v
      · simp [bumpWin, alookup, hk, hv, h]
      · simp only [bumpWin, if_neg hk, alookup, if_neg hv]
        exact ih

theorem winnerLoop_eq_find (b : Board) (L : List Triple) :
    winnerLoop b L =
      match L.find? (fun t => decide (winTriple b t)) with
      | some t => (b.getD t.1 none).map (fun s => (s, t))
      | none => none := by
  induction L with
  | nil => rfl
  | cons t rest ih =>
    unfold winnerLoop
    cases h1 : b.getD t.1 none with
    | none =>
      have hw : ¬ winTriple b t := by
        intro hwt
        obtain ⟨s, hs, _, _⟩ := hwt
        rw [h1] at hs
        exact Option.noConfusion hs
      have hdec : decide (winTriple b t) = false := decide_eq_false hw
      simp only [List.find?, hdec]
      exact ih
    | some s =>
      dsimp only
      by_cases hc : b.getD t.2.1 none = some s ∧ b.getD t.2.2 none = some s
      · have hdec : decide (winTriple b t) = true := decide_eq_true ⟨s, h1, hc.1, hc.2⟩
        rw [if_pos hc]
        simp only [List.find?, hdec, h1, Option.map_some']
      · have hw : ¬ winTriple b t := by
          intro hwt
          obtain ⟨s2, hs2, h2, h3⟩ := hwt
          rw [h1] at hs2
          cases hs2
          exact hc ⟨h2, h3⟩
        have hdec : decide (winTriple b t) = false := decide_eq_false hw
        rw [if_neg hc]
        simp only [List.find?, hdec]
        exact ih

theorem calculateWinner_eq_specEvaluate (b : Board) :
    calculateWinner b = specEvaluate b := by
  unfold calculateWinner specEvaluate
  rw [winnerLoop_eq_find]
  cases hf : linesList.find? (fun t => decide (winTriple b t)) with
  | none => rfl
  | some t =>
    have hp := List.find?_some hf
    simp only [decide_eq_true_eq] at hp
    obtain ⟨s, h1, _, _⟩ := hp
    dsimp only
    rw [h1]
    rfl

end TicTacToe

namespace TicTacToe

theorem symOf_aset_sock (ps : List (String × Player)) (uid sid : String) (v : String) :
    symOf (aset ps uid (fun p => { p with socketId := sid })) v = symOf ps v := by
  unfold symOf
  rw [alookup_aset]
  by_cases hv : v = uid
  · subst hv
    rw [if_pos rfl]
    cases alookup ps v <;> rfl
  · rw [if_neg hv]

theorem symOf_setSym_self (ps : List (String × Player)) (u : String) (s : Option Sym)
    (h : (alookup ps u).isSome) : symOf (setSym ps u s) u = s := by
  unfold symOf setSym
  rw [alookup_aset, if_pos rfl]
  cases ha : alookup ps u with
  | none => rw [ha] at h; exact Bool.noConfusion h
  | some p => rfl

theorem symOf_setSym_other (ps : List (String × Player)) (u : String) (s : Option Sym)
    (v : String) (h : v ≠ u) : symOf (setSym ps u s) v = symOf ps v := by
  unfold symOf setSym
  rw [alookup_aset, if_neg h]

theorem symOf_mem_symbols {ps : List (String × Player)} {u : String} {s : Sym}
    (h : symOf ps u = some s) : some s ∈ ps.map (fun e => e.2.symbol) := by
  unfold symOf at h
  cases ha : alookup ps u with
  | none => rw [ha] at h; exact Option.noConfusion h
  | some p =>
    rw [ha] at h
    have hp : p ∈ ps.map Prod.snd := snd_mem_of_alookup ha
    have : ps.map (fun e => e.2.symbol) = (ps.map Prod.snd).map Player.symbol := by
      rw [List.map_map]; rfl
    rw [this]
    exact h ▸ List.mem_map_of_mem Player.symbol hp

/-- C7: `calculateWinner` checks the 8 triples in a fixed order and returns
the first whose three cells are equal and non-empty; with no such triple it
returns draw on a full board and null otherwise; `[X,X,X,_,O,O,_,_,_]`
evaluates to winner X with line (0,1,2). -/
theorem evaluate_spec (b : Board) (_h9 : b.length = 9) :
    calculateWinner b = specEvaluate b ∧
    ((∀ t ∈ linesList, ¬ winTriple b t) → (∀ c ∈ b, c.isSome) →
      calculateWinner b = some ⟨Winner.draw, none⟩) ∧
    ((∀ t ∈ linesList, ¬ winTriple b t) → (∃ c ∈ b, c = none) →
      calculateWinner b = none) ∧
    calculateWinner demoBoard = some ⟨Winner.sym Sym.X, some (0, 1, 2)⟩ := by
  have hfind : (∀ t ∈ linesList, ¬ winTriple b t) →
      linesList.find? (fun t => decide (winTriple b t)) = none := by
    intro hnone
    rw [List.find?_eq_none]
    intro t ht
    simpa using hnone t ht
  refine ⟨calculateWinner_eq_specEvaluate b, ?_, ?_, by decide⟩
  · intro hnone hall
    rw [calculateWinner_eq_specEvaluate]
    unfold specEvaluate
    rw [hfind hnone]
    have : b.all (fun c => c.isSome) = true := List.all_eq_true.mpr hall
    simp [this]
  · intro hnone hex
    rw [calculateWinner_eq_specEvaluate]
    unfold specEvaluate
    rw [hfind hnone]
    have : ¬ (b.all (fun c => c.isSome) = true) := by
      intro hall
      obtain ⟨c, hc, hcn⟩ := hex
      have := List.all_eq_true.mp hall c hc
      rw [hcn] at this
      exact Bool.noConfusion this
    simp [this]

theorem evaluate_spec_witness :
    calculateWinner demoBoard = specEvaluate demoBoard :=
  (evaluate_spec demoBoard (by decide)).1

/-- C10: a join on an existing room never changes the board, the turn, the
outcome or the winning line. -/
theorem join_frame_spec (r : RoomState) (uid sid : String) :
    (joinCore r uid sid).board = r.board ∧
    (joinCore r uid sid).currentPlayer = r.currentPlayer ∧
    (joinCore r uid sid).winner = r.winner ∧
    (joinCore r uid sid).line = r.line := by
  unfold joinCore
  cases alookup r.players uid <;> simp

/-- C5: a join by an identity that is already a participant updates only the
stored socket id: every role, the admin, the scoreboard, the board, the turn
and the outcome are unchanged and no participant is added; and the
`disconnect` handler alone removes nothing. -/
theorem reconnect_continuity_spec (rs : RoomStateS) (uid sid : String) (p : Player)
    (h : alookup rs.room.players uid = some p) :
    (joinS rs uid sid).room.board = rs.room.board ∧
    (joinS rs uid sid).room.currentPlayer = rs.room.currentPlayer ∧
    (joinS rs uid sid).room.winner = rs.room.winner ∧
    (joinS rs uid sid).room.line = rs.room.line ∧
    (joinS rs uid sid).room.adminId = rs.room.adminId ∧
    (joinS rs uid sid).sb = rs.sb ∧
    (∀ v, symOf (joinS rs uid sid).room.players v = symOf rs.room.players v) ∧
    alookup (joinS rs uid sid).room.players uid = some { p with socketId := sid } ∧
    (joinS rs uid sid).room.players.map Prod.fst = rs.room.players.map Prod.fst ∧
    (∀ reg c, disconnectE reg c = (reg, [])) := by
  unfold joinS joinCore
  rw [h]
  dsimp only
  refine ⟨rfl, rfl, rfl, rfl, rfl, rfl, ?_, ?_, ?_, fun reg c => rfl⟩
  · intro v
    exact symOf_aset_sock rs.room.players uid sid v
  · rw [alookup_aset, if_pos rfl, h]
    rfl
  · exact keys_aset _ _ _

theorem reconnect_continuity_witness :
    (joinS rsAB "a" "s9").room.adminId = rsAB.room.adminId :=
  (reconnect_continuity_spec rsAB "a" "s9" ⟨some Sym.X, "s1"⟩ (by decide)).2.2.2.2.1

/-- C6: a reset and every privileged override issued by a non-admin identity
leave the registry unchanged and emit nothing. -/
theorem admin_gating_spec (reg : Registry) (c : Conn) (rid uid : String)
    (rs : RoomStateS) (h1 : c.joinedRoom = some rid) (h2 : c.myUserId = some uid)
    (h3 : alookup reg rid = some rs) (h4 : rs.room.adminId ≠ some uid) :
    resetE reg c = (reg, []) ∧ ∀ act, cheatE reg c act = (reg, []) := by
  constructor
  · unfold resetE
    rw [h1, h2]
    dsimp only
    rw [h3]
    dsimp only
    unfold resetS resetCore
    rw [if_neg h4]
    rfl
  · intro act
    unfold cheatE
    rw [h1, h2]
    dsimp only
    rw [h3]
    dsimp only
    unfold cheatS
    rw [if_neg h4]

theorem admin_gating_witness : resetE regAB connB = (regAB, []) :=
  (admin_gating_spec regAB connB "room1" "b" rsAB rfl rfl (by decide) (by decide)).1

/-- C1: a move is applied (cell written, outcome evaluated and recorded or
turn flipped, one state broadcast) exactly when the connection is bound to an
existing room, the identity is a participant holding a symbol, no outcome is
set, the cell is an in-range empty cell and the mover's symbol is the current
turn; in every other case the registry is unchanged and nothing is emitted. -/
theorem move_acceptance_spec (reg : Registry) (c : Conn) (idx : Nat) :
    (∀ rid uid rs p s,
      c.joinedRoom = some rid → c.myUserId = some uid →
      alookup reg rid = some rs → alookup rs.room.players uid = some p →
      p.symbol = some s → rs.room.winner = none →
      rs.room.board.get? idx = some none → rs.room.currentPlayer = s →
      moveE reg c idx =
        (regSet reg rid (msApplied rs s idx),
         [Emit.stateMsg rid (roomView (applyMoveBody rs.room s idx))])) ∧
    ((¬ ∃ rid uid rs p s,
      c.joinedRoom = some rid ∧ c.myUserId = some uid ∧
      alookup reg rid = some rs ∧ alookup rs.room.players uid = some p ∧
      p.symbol = some s ∧ rs.room.winner = none ∧
      rs.room.board.get? idx = some none ∧ rs.room.currentPlayer = s) →
      moveE reg c idx = (reg, [])) := by
  constructor
  · intro rid uid rs p s h1 h2 h3 h4 h5 h6 h7 h8
    unfold moveE
    rw [h1, h2]
    dsimp only
    rw [h3]
    dsimp only
    unfold moveS moveCore
    rw [h4]
    dsimp only
    rw [h5]
    dsimp only
    rw [h6]
    rw [if_neg (by simp)]
    rw [if_neg (not_not_intro h7)]
    rw [if_neg (not_not_intro h8)]
    rfl
  · intro hno
    unfold moveE
    cases h1 : c.joinedRoom with
    | none => rfl
    | some rid =>
      cases h2 : c.myUserId with
      | none => rfl
      | some uid =>
        dsimp only
        cases h3 : alookup reg rid with
        | none => rfl
        | some rs =>
          dsimp only
          unfold moveS moveCore
          cases h4 : alookup rs.room.players uid with
          | none => rfl
          | some p =>
            dsimp only
            cases h5 : p.symbol with
            | none => rfl
            | some s =>
              dsimp only
              by_cases h6 : rs.room.winner.isSome = true
              · rw [if_pos h6]
              · rw [if_neg h6]
                by_cases h7 : rs.room.board.get? idx = some none
                · rw [if_neg (not_not_intro h7)]
                  by_cases h8 : rs.room.currentPlayer = s
                  · exact absurd
                      ⟨rid, uid, rs, p, s, h1, h2, h3, h4, h5,
                        Option.not_isSome_iff_eq_none.mp h6, h7, h8⟩ hno
                  · rw [if_pos h8]
                · rw [if_pos h7]

theorem move_acceptance_witness :
    moveE regAB connA 2 =
      (regSet regAB "room1" (msApplied rsAB Sym.X 2),
       [Emit.stateMsg "room1" (roomView (applyMoveBody rsAB.room Sym.X 2))]) :=
  (move_acceptance_spec regAB connA 2).1 "room1" "a" rsAB ⟨some Sym.X, "s1"⟩ Sym.X
    rfl rfl (by decide) (by decide) rfl rfl (by decide) rfl

/-- C3: an accepted move that produces a decisive win adds exactly one to the
winning identity's score and changes no other score and not the draw counter;
an accepted move that produces a draw adds exactly one to the draw counter
and changes no per-identity score. -/
theorem score_accounting_spec (rs rs2 : RoomStateS) (uid : String) (idx : Nat)
    (h : moveS rs uid idx = some rs2) :
    (∀ s w, rs2.room.winner = some (Winner.sym s) →
      holderOf rs.room.players s = some w →
      winCount rs2.sb w = winCount rs.sb w + 1 ∧
      (∀ v, v ≠ w → winCount rs2.sb v = winCount rs.sb v) ∧
      rs2.sb.draws = rs.sb.draws) ∧
    (rs2.room.winner = some Winner.draw →
      rs2.sb.draws = rs.sb.draws + 1 ∧ ∀ v, winCount rs2.sb v = winCount rs.sb v) := by
  unfold moveS at h
  cases hm : moveCore rs.room uid idx with
  | none => rw [hm] at h; exact Option.noConfusion h
  | some r =>
    rw [hm] at h
    dsimp only at h
    injection h with h
    subst h
    constructor
    · intro s w hwin hold
      dsimp only at hwin ⊢
      rw [hwin]
      unfold scoreOutcome
      dsimp only
      rw [hold]
      dsimp only
      refine ⟨?_, ?_, rfl⟩
      · unfold winCount
        rw [alookup_bumpWin_self]
        rfl
      · intro v hv
        unfold winCount
        rw [alookup_bumpWin_other _ _ _ hv]
    · intro hdraw
      dsimp only at hdraw ⊢
      rw [hdraw]
      unfold scoreOutcome
      exact ⟨rfl, fun v => rfl⟩

theorem score_accounting_witness :
    winCount (msApplied rsAB Sym.X 2).sb "a" = winCount rsAB.sb "a" + 1 :=
  ((score_accounting_spec rsAB (msApplied rsAB Sym.X 2) "a" 2 (by decide)).1
    Sym.X "a" (by decide) (by decide)).1

/-- C8: a leave that removes the last participant deletes the room (and its
scoreboard) from the registry with no broadcast, and a later join under the
same room id starts from the fresh state: empty board, turn X, no outcome,
the joiner as sole participant with X and admin, and a zero scoreboard. -/
theorem room_teardown_spec (reg : Registry) (c : Conn) (rid uid : String)
    (rs : RoomStateS) (h1 : c.joinedRoom = some rid) (h2 : c.myUserId = some uid)
    (h3 : alookup reg rid = some rs)
    (h4 : eraseKey rs.room.players uid = []) :
    leaveE reg c = (eraseKey reg rid, []) ∧
    alookup (eraseKey reg rid) rid = none ∧
    (∀ reg2 c2 rid2 uid2, alookup reg2 rid2 = none →
      joinRoomE reg2 c2 rid2 uid2 =
        (regSet reg2 rid2 (joinS emptyS uid2 c2.sid),
         { c2 with joinedRoom := some rid2, myUserId := some uid2 },
         [Emit.joinedMsg c2.sid (some Sym.X) true,
          Emit.stateMsg rid2 (roomView (joinS emptyS uid2 c2.sid).room)]) ∧
      joinS emptyS uid2 c2.sid =
        ⟨{ emptyState with players := [(uid2, ⟨some Sym.X, c2.sid⟩)], adminId := some uid2 },
         ⟨[(uid2, 0)], 0⟩⟩) := by
  refine ⟨?_, ?_, ?_⟩
  · unfold leaveE
    rw [h1, h2]
    dsimp only
    rw [h3]
    dsimp only
    unfold leaveS leaveCore
    dsimp only
    rw [h4]
    rfl
  · rw [alookup_eraseKey, if_pos rfl]
  · intro reg2 c2 rid2 uid2 hn
    constructor
    · unfold joinRoomE
      rw [hn]
      dsimp only
      simp [joinS, joinCore, emptyS, emptyState, symOf, alookup, ensureZero, emptySB]
    · simp [joinS, joinCore, emptyS, emptyState, ensureZero, emptySB, alookup]

theorem room_teardown_witness : leaveE regSolo connZ = (eraseKey regSolo "roomz", []) :=
  (room_teardown_spec regSolo connZ "roomz" "z" (joinS emptyS "z" "s7")
    rfl rfl (by decide) (by decide)).1

end TicTacToe

namespace TicTacToe

theorem two_le_length_of_two_mem {α : Type} {a b : α} {l : List α}
    (hab : a ≠ b) (ha : a ∈ l) (hb : b ∈ l) : 2 ≤ l.length := by
  induction l with
  | nil => simp at ha
  | cons x xs ih =>
    simp only [List.length_cons]
    rcases List.mem_cons.mp ha with h1 | h1
    · rcases List.mem_cons.mp hb with h2 | h2
      · exact absurd (h1.trans h2.symm) hab
      · have := List.length_pos.mpr (List.ne_nil_of_mem h2)
        omega
    · have := List.length_pos.mpr (List.ne_nil_of_mem h1)
      omega

theorem lookup_isSome_of_symOf {ps : List (String × Player)} {u : String} {s : Sym}
    (h : symOf ps u = some s) : (alookup ps u).isSome := by
  unfold symOf at h
  cases ha : alookup ps u with
  | none => rw [ha] at h; exact Option.noConfusion h
  | some p => rfl

theorem mem_keys_of_symOf {ps : List (String × Player)} {u : String} {s : Sym}
    (h : symOf ps u = some s) : u ∈ ps.map Prod.fst := by
  unfold symOf at h
  cases ha : alookup ps u with
  | none => rw [ha] at h; exact Option.noConfusion h
  | some p => exact mem_keys_of_alookup ha

theorem mem_actives_iff (ps : List (String × Player)) (u : String) :
    u ∈ (ps.map Prod.fst).filter (fun v => isActive ps v) ↔
      (u ∈ ps.map Prod.fst ∧ (symOf ps u = some Sym.X ∨ symOf ps u = some Sym.O)) := by
  rw [List.mem_filter]
  unfold isActive
  simp

theorem rotate_two_actives (ps : List (String × Player)) (w : Sym) (iw io : String)
    (hx : AtMostOne ps Sym.X) (ho : AtMostOne ps Sym.O)
    (hiw : symOf ps iw = some w) (hio : symOf ps io = some w.other) :
    symOf (rotatePlayers ps (some (Winner.sym w))) iw = some Sym.X ∧
    symOf (rotatePlayers ps (some (Winner.sym w))) io = some Sym.O ∧
    (∀ v, v ≠ iw → v ≠ io → symOf (rotatePlayers ps (some (Winner.sym w))) v = symOf ps v) := by
  have hne : iw ≠ io := by
    intro he
    rw [he] at hiw
    have h2 : some w = some w.other := hiw.symm.trans hio
    cases w <;> simp [Sym.other] at h2
  have hiwS : (alookup ps iw).isSome := lookup_isSome_of_symOf hiw
  have hioS : (alookup ps io).isSome := lookup_isSome_of_symOf hio
  have hiwk : iw ∈ ps.map Prod.fst := mem_keys_of_symOf hiw
  have hiok : io ∈ ps.map Prod.fst := mem_keys_of_symOf hio
  have hlen : 2 ≤ ps.length := by
    have := two_le_length_of_two_mem hne hiwk hiok
    rwa [List.length_map] at this
  have hiwa : iw ∈ (ps.map Prod.fst).filter (fun v => isActive ps v) := by
    rw [mem_actives_iff]
    refine ⟨hiwk, ?_⟩
    cases w
    · exact Or.inl hiw
    · exact Or.inr hiw
  have hioa : io ∈ (ps.map Prod.fst).filter (fun v => isActive ps v) := by
    rw [mem_actives_iff]
    refine ⟨hiok, ?_⟩
    cases w
    · exact Or.inr hio
    · exact Or.inl hio
  have hwfind : ((ps.map Prod.fst).filter (fun v => isActive ps v)).find?
      (fun u => decide (symOf ps u = some w)) = some iw := by
    apply find?_eq_some_of_unique hiwa (decide_eq_true hiw)
    intro b hb hpb
    have hsb : symOf ps b = some w := of_decide_eq_true hpb
    cases w
    · exact hx b iw hsb hiw
    · exact ho b iw hsb hiw
  have hpio : decide ((some iw : Option String) ≠ some io) = true := by
    apply decide_eq_true
    intro he
    exact hne (Option.some.inj he)
  have hlfind : ((ps.map Prod.fst).filter (fun v => isActive ps v)).find?
      (fun u => decide ((some iw : Option String) ≠ some u)) = some io := by
    apply find?_eq_some_of_unique hioa hpio
    intro b hb hpb
    have hbne : b ≠ iw := by
      intro he
      exact (of_decide_eq_true hpb) (by rw [he])
    rcases ((mem_actives_iff ps b).mp hb).2 with hbs | hbs
    · cases w
      · exact absurd (hx b iw hbs hiw) hbne
      · exact hx b io hbs hio
    · cases w
      · exact ho b io hbs hio
      · exact absurd (ho b iw hbs hiw) hbne
  unfold rotatePlayers
  rw [if_pos hlen]
  dsimp only
  rw [hwfind]
  dsimp only
  rw [hlfind]
  dsimp only
  have hioS1 : (alookup (setSym ps iw (some Sym.X)) io).isSome := by
    unfold setSym
    rw [alookup_aset, if_neg (fun he => hne he.symm)]
    exact hioS
  refine ⟨?_, ?_, ?_⟩
  · rw [symOf_setSym_other _ _ _ iw hne, symOf_setSym_self _ _ _ hiwS]
  · rw [symOf_setSym_self _ _ _ hioS1]
  · intro v hviw hvio
    rw [symOf_setSym_other _ _ _ v hvio, symOf_setSym_other _ _ _ v hviw]

/-- C4 counterexample: in the reachable room `c4state` (admin a, previous
outcome a decisive O win, only one active role remaining) a reset by the
admin changes a's role from X to O, contradicting the claim that with fewer
than two active roles every participant's role is unchanged. -/
theorem reset_roles_counterexample :
    c4state.adminId = some "a" ∧
    c4state.winner = some (Winner.sym Sym.O) ∧
    ((c4state.players.map Prod.fst).filter (fun u => isActive c4state.players u)).length = 1 ∧
    resetCore c4state "a" = some c4after ∧
    symOf c4state.players "a" = some Sym.X ∧
    symOf c4after.players "a" = some Sym.O := by
  refine ⟨by decide, by decide, by decide, by decide, by decide, by decide⟩

/-- C4 (amended): every admin reset clears the board, sets turn X and clears
the outcome; if the previous outcome was a decisive win and two distinct
participants hold the winning and the losing symbols (each held at most
once), the winning-symbol holder ends with X, the losing-symbol holder with O
and every other participant keeps its role; on a draw, or when the room has
fewer than two participants in total, every participant keeps its role.  (The
original claim's no-change case for "fewer than two active roles" fails, see
the counterexample; with at least two participants but fewer than two active
roles the code may still reassign the remaining active participant.) -/
theorem reset_amended_spec (r : RoomState) (uid : String) (h : r.adminId = some uid) :
    resetCore r uid = some (resetApplied r) ∧
    (resetApplied r).board = List.replicate 9 none ∧
    (resetApplied r).currentPlayer = Sym.X ∧
    (resetApplied r).winner = none ∧
    (resetApplied r).line = none ∧
    (∀ w iw io, r.winner = some (Winner.sym w) →
      AtMostOne r.players Sym.X → AtMostOne r.players Sym.O →
      symOf r.players iw = some w → symOf r.players io = some w.other →
      symOf (resetApplied r).players iw = some Sym.X ∧
      symOf (resetApplied r).players io = some Sym.O ∧
      ∀ v, v ≠ iw → v ≠ io →
        symOf (resetApplied r).players v = symOf r.players v) ∧
    ((r.winner = some Winner.draw ∨ r.players.length < 2) →
      (resetApplied r).players = r.players) := by
  refine ⟨by rw [resetCore, if_pos h], rfl, rfl, rfl, rfl, ?_, ?_⟩
  · intro w iw io hw hx ho hiw hio
    have hp : (resetApplied r).players = rotatePlayers r.players r.winner := rfl
    rw [hp, hw]
    exact rotate_two_actives r.players w iw io hx ho hiw hio
  · intro hcase
    have hp : (resetApplied r).players = rotatePlayers r.players r.winner := rfl
    rw [hp]
    rcases hcase with hd | hl
    · rw [hd]
      unfold rotatePlayers
      by_cases h2 : 2 ≤ r.players.length
      · rw [if_pos h2]
      · rw [if_neg h2]
    · have hn2 : ¬ (2 ≤ r.players.length) := by omega
      unfold rotatePlayers
      rw [if_neg hn2]

theorem reset_amended_witness : resetCore roomAB "a" = some (resetApplied roomAB) :=
  (reset_amended_spec roomAB "a" rfl).1

end TicTacToe

namespace TicTacToe

theorem patternRoles_of_two_le {n : Nat} (h : 2 ≤ n) : patternRoles n = none := by
  match n, h with
  | n + 2, _ => rfl

theorem patternRoles_eq_X_iff (i : Nat) : patternRoles i = some Sym.X ↔ i = 0 := by
  match i with
  | 0 => simp [patternRoles]
  | 1 => simp [patternRoles]
  | n + 2 => simp [patternRoles]

theorem patternRoles_eq_O_iff (i : Nat) : patternRoles i = some Sym.O ↔ i = 1 := by
  match i with
  | 0 => simp [patternRoles]
  | 1 => simp [patternRoles]
  | n + 2 => simp [patternRoles]

theorem expectedPlayers_append (i : Nat) (us : List (String × String))
    (u : String × String) :
    expectedPlayers i (us ++ [u]) =
      expectedPlayers i us ++ [(u.1, ⟨patternRoles (i + us.length), u.2⟩)] := by
  induction us generalizing i with
  | nil => simp [expectedPlayers]
  | cons e rest ih =>
    simp only [List.cons_append, expectedPlayers, List.append_eq, List.length_cons]
    rw [ih (i + 1), show i + 1 + rest.length = i + (rest.length + 1) by omega]

theorem alookup_expectedPlayers (i : Nat) (us : List (String × String)) (uid : String) :
    uid ∉ us.map Prod.fst → alookup (expectedPlayers i us) uid = none := by
  induction us generalizing i with
  | nil => intro _; rfl
  | cons e rest ih =>
    intro h
    simp only [List.map, List.mem_cons] at h
    push_neg at h
    simp only [expectedPlayers, alookup]
    rw [if_neg (fun he => h.1 he.symm)]
    exact ih (i + 1) h.2

theorem X_mem_expected_iff (i : Nat) (us : List (String × String)) :
    some Sym.X ∈ (expectedPlayers i us).map (fun e => e.2.symbol) ↔
      (i = 0 ∧ us ≠ []) := by
  induction us generalizing i with
  | nil => simp [expectedPlayers]
  | cons e rest ih =>
    simp only [expectedPlayers, List.map, List.mem_cons]
    constructor
    · intro hmem
      rcases hmem with hh | hh
      · exact ⟨(patternRoles_eq_X_iff i).mp hh.symm, by simp⟩
      · have h2 := (ih (i + 1)).mp hh
        omega
    · rintro ⟨hi, _⟩
      subst hi
      exact Or.inl ((patternRoles_eq_X_iff 0).mpr rfl).symm

theorem O_mem_expected_iff (i : Nat) (us : List (String × String)) :
    some Sym.O ∈ (expectedPlayers i us).map (fun e => e.2.symbol) ↔
      (i ≤ 1 ∧ 2 ≤ i + us.length) := by
  induction us generalizing i with
  | nil =>
    simp only [expectedPlayers, List.map, List.not_mem_nil, false_iff, List.length_nil]
    omega
  | cons e rest ih =>
    simp only [expectedPlayers, List.map, List.mem_cons, List.length_cons]
    rw [ih (i + 1)]
    constructor
    · rintro (hh | ⟨h1, h2⟩)
      · have := (patternRoles_eq_O_iff i).mp hh.symm
        omega
      · exact ⟨by omega, by omega⟩
    · rintro ⟨h1, h2⟩
      by_cases hi : i = 1
      · exact Or.inl ((patternRoles_eq_O_iff i).mpr hi).symm
      · exact Or.inr ⟨by omega, by omega⟩

theorem joinAll_characterization (us : List (String × String)) :
    (us.map Prod.fst).Nodup →
    (joinAll us).players = expectedPlayers 0 us ∧
    (joinAll us).adminId = (us.head?).map Prod.fst := by
  induction us using List.reverseRecOn with
  | nil => intro _; exact ⟨rfl, rfl⟩
  | append_singleton us u ih =>
    intro h
    rw [show (us ++ [u]).map Prod.fst = us.map Prod.fst ++ [u.1] by simp] at h
    obtain ⟨hnd1, _, hdisj⟩ := List.nodup_append.mp h
    have hnotin : u.1 ∉ us.map Prod.fst := fun hin => hdisj hin (by simp)
    obtain ⟨hps, had⟩ := ih hnd1
    have hfold : joinAll (us ++ [u]) = joinCore (joinAll us) u.1 u.2 := by
      unfold joinAll
      rw [List.foldl_append]
      rfl
    rw [hfold]
    unfold joinCore
    rw [hps, had, alookup_expectedPlayers 0 us u.1 hnotin]
    dsimp only
    cases us with
    | nil => simp [expectedPlayers, patternRoles, alookup]
    | cons e rest =>
      have hXin : some Sym.X ∈ (expectedPlayers 0 (e :: rest)).map (fun x => x.2.symbol) := by
        rw [X_mem_expected_iff]
        exact ⟨rfl, by simp⟩
      rw [if_neg (not_not_intro hXin)]
      by_cases hlen : 2 ≤ (e :: rest).length
      · have hOin : some Sym.O ∈ (expectedPlayers 0 (e :: rest)).map (fun x => x.2.symbol) :=
          (O_mem_expected_iff 0 (e :: rest)).mpr ⟨by omega, by omega⟩
        rw [if_neg (not_not_intro hOin)]
        constructor
        · rw [expectedPlayers_append]
          rw [show (0 + (e :: rest).length) = (e :: rest).length by omega]
          rw [patternRoles_of_two_le hlen]
        · simp
      · have hrest : rest = [] := by
          simp only [List.length_cons] at hlen
          have : rest.length = 0 := by omega
          exact List.length_eq_zero.mp this
        subst hrest
        have hOout : some Sym.O ∉ (expectedPlayers 0 [e]).map (fun x => x.2.symbol) := by
          rw [O_mem_expected_iff]
          simp
        rw [if_pos hOout]
        constructor
        · rw [expectedPlayers_append]
          rfl
        · simp

theorem moveCore_frame {r r2 : RoomState} {uid : String} {idx : Nat}
    (h : moveCore r uid idx = some r2) :
    r2.players = r.players ∧ r2.adminId = r.adminId := by
  unfold moveCore at h
  cases ha : alookup r.players uid with
  | none => rw [ha] at h; exact Option.noConfusion h
  | some p =>
    rw [ha] at h
    dsimp only at h
    cases hs : p.symbol with
    | none => rw [hs] at h; exact Option.noConfusion h
    | some s =>
      rw [hs] at h
      dsimp only at h
      by_cases h6 : r.winner.isSome = true
      · rw [if_pos h6] at h; exact Option.noConfusion h
      · rw [if_neg h6] at h
        by_cases h7 : r.board.get? idx = some none
        · rw [if_neg (not_not_intro h7)] at h
          by_cases h8 : r.currentPlayer = s
          · rw [if_neg (not_not_intro h8)] at h
            injection h with h
            subst h
            unfold applyMoveBody
            dsimp only
            cases calculateWinner (r.board.set idx (some s)) <;> exact ⟨rfl, rfl⟩
          · rw [if_pos h8] at h; exact Option.noConfusion h
        · rw [if_pos h7] at h; exact Option.noConfusion h

/-- C2: distinct first-time joins into a fresh room produce the participant
list in join order with roles X, O, spectator, spectator, ...; the admin is
the first joiner; and the admin is unchanged by moves, resets, joins (while
set) and leaves of any other identity. -/
theorem role_assignment_spec (us : List (String × String))
    (h : (us.map Prod.fst).Nodup) :
    (joinAll us).players = expectedPlayers 0 us ∧
    (joinAll us).adminId = (us.head?).map Prod.fst ∧
    (∀ r uid idx r2, moveCore r uid idx = some r2 → r2.adminId = r.adminId) ∧
    (∀ r uid r2, resetCore r uid = some r2 → r2.adminId = r.adminId) ∧
    (∀ r uid sid, r.adminId ≠ none → (joinCore r uid sid).adminId = r.adminId) ∧
    (∀ r uid, r.adminId ≠ some uid → (leaveCore r uid).adminId = r.adminId) := by
  obtain ⟨hps, had⟩ := joinAll_characterization us h
  refine ⟨hps, had, ?_, ?_, ?_, ?_⟩
  · intro r uid idx r2 hm
    exact (moveCore_frame hm).2
  · intro r uid r2 hm
    unfold resetCore at hm
    by_cases hadm : r.adminId = some uid
    · rw [if_pos hadm] at hm
      injection hm with hm
      subst hm
      rfl
    · rw [if_neg hadm] at hm
      exact Option.noConfusion hm
  · intro r uid sid hne
    unfold joinCore
    cases ha : alookup r.players uid with
    | none =>
      dsimp only
      rw [if_neg hne]
    | some p => rfl
  · intro r uid hne
    unfold leaveCore
    dsimp only
    rw [if_neg hne]

theorem role_assignment_witness :
    (joinAll usABC).players = expectedPlayers 0 usABC :=
  (role_assignment_spec usABC (by decide)).1

end TicTacToe

namespace TicTacToe

theorem symOf_eraseKey (ps : List (String × Player)) (uid v : String) :
    symOf (eraseKey ps uid) v = if v = uid then none else symOf ps v := by
  unfold symOf
  rw [alookup_eraseKey]
  by_cases hv : v = uid
  · rw [if_pos hv, if_pos hv]
    rfl
  · rw [if_neg hv, if_neg hv]

theorem erase_atMostOne {ps : List (String × Player)} {s : Sym} (uid : String)
    (h : AtMostOne ps s) : AtMostOne (eraseKey ps uid) s := by
  intro u v hu hv
  rw [symOf_eraseKey] at hu hv
  by_cases hu2 : u = uid
  · rw [if_pos hu2] at hu
    exact Option.noConfusion hu
  · rw [if_neg hu2] at hu
    by_cases hv2 : v = uid
    · rw [if_pos hv2] at hv
      exact Option.noConfusion hv
    · rw [if_neg hv2] at hv
      exact h u v hu hv

theorem atMostOne_join (r : RoomState) (uid sid : String)
    (hx : AtMostOne r.players Sym.X) (ho : AtMostOne r.players Sym.O) :
    AtMostOne (joinCore r uid sid).players Sym.X ∧
    AtMostOne (joinCore r uid sid).players Sym.O := by
  cases ha : alookup r.players uid with
  | some p =>
    have hsym : ∀ v, symOf (joinCore r uid sid).players v = symOf r.players v := by
      intro v
      unfold joinCore
      rw [ha]
      dsimp only
      exact symOf_aset_sock r.players uid sid v
    refine ⟨?_, ?_⟩ <;> intro u v hu hv
    · rw [hsym u] at hu
      rw [hsym v] at hv
      exact hx u v hu hv
    · rw [hsym u] at hu
      rw [hsym v] at hv
      exact ho u v hu hv
  | none =>
    have hplayers : ∀ z s2, symOf (joinCore r uid sid).players z = some s2 →
        symOf r.players z = some s2 ∨
        (z = uid ∧
          (if some Sym.X ∉ r.players.map (fun e => e.2.symbol) then some Sym.X
           else if some Sym.O ∉ r.players.map (fun e => e.2.symbol) then some Sym.O
           else none) = some s2) := by
      intro z s2 hz
      unfold joinCore at hz
      rw [ha] at hz
      dsimp only at hz
      unfold symOf at hz
      cases hav : alookup r.players z with
      | some p =>
        rw [alookup_append_of_some _ hav] at hz
        left
        unfold symOf
        rw [hav]
        exact hz
      | none =>
        rw [alookup_append_of_none _ hav] at hz
        by_cases hzu : uid = z
        · right
          refine ⟨hzu.symm, ?_⟩
          unfold alookup at hz
          rw [if_pos hzu] at hz
          exact hz
        · unfold alookup at hz
          rw [if_neg hzu] at hz
          exact Option.noConfusion hz
    have hmX : (if some Sym.X ∉ r.players.map (fun e => e.2.symbol) then some Sym.X
        else if some Sym.O ∉ r.players.map (fun e => e.2.symbol) then some Sym.O
        else none) = some Sym.X →
        some Sym.X ∉ r.players.map (fun e => e.2.symbol) := by
      intro hmx hxs
      rw [if_neg (not_not_intro hxs)] at hmx
      by_cases hos : some Sym.O ∈ r.players.map (fun e => e.2.symbol)
      · rw [if_neg (not_not_intro hos)] at hmx
        exact Option.noConfusion hmx
      · rw [if_pos hos] at hmx
        injection hmx with hmx
        exact Sym.noConfusion hmx
    have hmO : (if some Sym.X ∉ r.players.map (fun e => e.2.symbol) then some Sym.X
        else if some Sym.O ∉ r.players.map (fun e => e.2.symbol) then some Sym.O
        else none) = some Sym.O →
        some Sym.O ∉ r.players.map (fun e => e.2.symbol) := by
      intro hmo hos
      by_cases hxs : some Sym.X ∈ r.players.map (fun e => e.2.symbol)
      · rw [if_neg (not_not_intro hxs), if_neg (not_not_intro hos)] at hmo
        exact Option.noConfusion hmo
      · rw [if_pos hxs] at hmo
        injection hmo with hmo
        exact Sym.noConfusion hmo
    refine ⟨?_, ?_⟩ <;> intro u v hu hv
    · rcases hplayers u Sym.X hu with hu2 | ⟨huu, hum⟩
      · rcases hplayers v Sym.X hv with hv2 | ⟨hvv, hvm⟩
        · exact hx u v hu2 hv2
        · exact absurd (symOf_mem_symbols hu2) (hmX hvm)
      · rcases hplayers v Sym.X hv with hv2 | ⟨hvv, hvm⟩
        · exact absurd (symOf_mem_symbols hv2) (hmX hum)
        · rw [huu, hvv]
    · rcases hplayers u Sym.O hu with hu2 | ⟨huu, hum⟩
      · rcases hplayers v Sym.O hv with hv2 | ⟨hvv, hvm⟩
        · exact ho u v hu2 hv2
        · exact absurd (symOf_mem_symbols hu2) (hmO hvm)
      · rcases hplayers v Sym.O hv with hv2 | ⟨hvv, hvm⟩
        · exact absurd (symOf_mem_symbols hv2) (hmO hum)
        · rw [huu, hvv]

end TicTacToe

namespace TicTacToe

theorem rotate_atMostOne (ps : List (String × Player)) (lastW : Option Winner)
    (hx : AtMostOne ps Sym.X) (ho : AtMostOne ps Sym.O) :
    AtMostOne (rotatePlayers ps lastW) Sym.X ∧
    AtMostOne (rotatePlayers ps lastW) Sym.O := by
  unfold rotatePlayers
  by_cases hlen : 2 ≤ ps.length
  · rw [if_pos hlen]
    cases lastW with
    | none => exact ⟨hx, ho⟩
    | some wv =>
      cases wv with
      | draw => exact ⟨hx, ho⟩
      | sym w =>
        dsimp only
        cases hwf : ((ps.map Prod.fst).filter (fun u => isActive ps u)).find?
            (fun u => decide (symOf ps u = some w)) with
        | none =>
          dsimp only
          cases hlf : ((ps.map Prod.fst).filter (fun u => isActive ps u)).find?
              (fun u => decide ((none : Option String) ≠ some u)) with
          | none => exact ⟨hx, ho⟩
          | some li =>
            have hnofind := List.find?_eq_none.mp hwf
            have hlia := List.mem_of_find?_eq_some hlf
            have hliK := (mem_actives_iff ps li).mp hlia
            have hliS : (alookup ps li).isSome := alookup_isSome_of_mem_keys hliK.1
            dsimp only
            constructor
            · intro u v hu hv
              have hchar : ∀ z, symOf (setSym ps li (some Sym.O)) z = some Sym.X →
                  z ≠ li ∧ symOf ps z = some Sym.X := by
                intro z hz
                by_cases hzl : z = li
                · subst hzl
                  rw [symOf_setSym_self _ _ _ hliS] at hz
                  simp at hz
                · rw [symOf_setSym_other _ _ _ z hzl] at hz
                  exact ⟨hzl, hz⟩
              obtain ⟨_, hu2⟩ := hchar u hu
              obtain ⟨_, hv2⟩ := hchar v hv
              exact hx u v hu2 hv2
            · intro u v hu hv
              by_cases hul : u = li
              · by_cases hvl : v = li
                · rw [hul, hvl]
                · rw [symOf_setSym_other _ _ _ v hvl] at hv
                  have hva : v ∈ (ps.map Prod.fst).filter (fun u => isActive ps u) := by
                    rw [mem_actives_iff]
                    exact ⟨mem_keys_of_symOf hv, Or.inr hv⟩
                  cases w
                  · rcases hliK.2 with hliX | hliO
                    · exact absurd hliX (by simpa using hnofind li hlia)
                    · exact hul.trans (ho li v hliO hv)
                  · exact absurd hv (by simpa using hnofind v hva)
              · by_cases hvl : v = li
                · rw [symOf_setSym_other _ _ _ u hul] at hu
                  have hua : u ∈ (ps.map Prod.fst).filter (fun u => isActive ps u) := by
                    rw [mem_actives_iff]
                    exact ⟨mem_keys_of_symOf hu, Or.inr hu⟩
                  cases w
                  · rcases hliK.2 with hliX | hliO
                    · exact absurd hliX (by simpa using hnofind li hlia)
                    · exact (ho u li hu hliO).trans hvl.symm
                  · exact absurd hu (by simpa using hnofind u hua)
                · rw [symOf_setSym_other _ _ _ u hul] at hu
                  rw [symOf_setSym_other _ _ _ v hvl] at hv
                  exact ho u v hu hv
        | some wi =>
          have hwiP := List.find?_some hwf
          simp only [decide_eq_true_eq] at hwiP
          have hwia := List.mem_of_find?_eq_some hwf
          have hwiS : (alookup ps wi).isSome := lookup_isSome_of_symOf hwiP
          dsimp only
          cases hlf : ((ps.map Prod.fst).filter (fun u => isActive ps u)).find?
              (fun u => decide ((some wi : Option String) ≠ some u)) with
          | none =>
            have hnol := List.find?_eq_none.mp hlf
            have hall : ∀ a, a ∈ (ps.map Prod.fst).filter (fun u => isActive ps u) →
                a = wi := by
              intro a haa
              have h2 := hnol a haa
              simp only [decide_eq_true_eq, not_not] at h2
              exact (Option.some.inj h2).symm
            dsimp only
            constructor
            · intro u v hu hv
              by_cases hul : u = wi
              · by_cases hvl : v = wi
                · rw [hul, hvl]
                · rw [symOf_setSym_other _ _ _ v hvl] at hv
                  have hva : v ∈ (ps.map Prod.fst).filter (fun u => isActive ps u) := by
                    rw [mem_actives_iff]
                    exact ⟨mem_keys_of_symOf hv, Or.inl hv⟩
                  exact absurd (hall v hva) hvl
              · by_cases hvl : v = wi
                · rw [symOf_setSym_other _ _ _ u hul] at hu
                  have hua : u ∈ (ps.map Prod.fst).filter (fun u => isActive ps u) := by
                    rw [mem_actives_iff]
                    exact ⟨mem_keys_of_symOf hu, Or.inl hu⟩
                  exact absurd (hall u hua) hul
                · rw [symOf_setSym_other _ _ _ u hul] at hu
                  rw [symOf_setSym_other _ _ _ v hvl] at hv
                  exact hx u v hu hv
            · intro u v hu hv
              have hchar : ∀ z, symOf (setSym ps wi (some Sym.X)) z = some Sym.O →
                  z ≠ wi ∧ symOf ps z = some Sym.O := by
                intro z hz
                by_cases hzw : z = wi
                · subst hzw
                  rw [symOf_setSym_self _ _ _ hwiS] at hz
                  simp at hz
                · rw [symOf_setSym_other _ _ _ z hzw] at hz
                  exact ⟨hzw, hz⟩
              obtain ⟨_, hu2⟩ := hchar u hu
              obtain ⟨_, hv2⟩ := hchar v hv
              exact ho u v hu2 hv2
          | some li =>
            have hlip := List.find?_some hlf
            simp only [decide_eq_true_eq] at hlip
            have hlwne : li ≠ wi := fun he => hlip (by rw [he])
            have hlia := List.mem_of_find?_eq_some hlf
            have hliK := (mem_actives_iff ps li).mp hlia
            have hliS : (alookup ps li).isSome := alookup_isSome_of_mem_keys hliK.1
            have hliS1 : (alookup (setSym ps wi (some Sym.X)) li).isSome := by
              unfold setSym
              rw [alookup_aset, if_neg hlwne]
              exact hliS
            dsimp only
            have hchar : ∀ z s2,
                symOf (setSym (setSym ps wi (some Sym.X)) li (some Sym.O)) z = some s2 →
                (z = li ∧ s2 = Sym.O) ∨ (z ≠ li ∧ z = wi ∧ s2 = Sym.X) ∨
                (z ≠ li ∧ z ≠ wi ∧ symOf ps z = some s2) := by
              intro z s2 hz
              by_cases hzl : z = li
              · subst hzl
                rw [symOf_setSym_self _ _ _ hliS1] at hz
                exact Or.inl ⟨rfl, (Option.some.inj hz).symm⟩
              · rw [symOf_setSym_other _ _ _ z hzl] at hz
                by_cases hzw : z = wi
                · subst hzw
                  rw [symOf_setSym_self _ _ _ hwiS] at hz
                  exact Or.inr (Or.inl ⟨hzl, rfl, (Option.some.inj hz).symm⟩)
                · rw [symOf_setSym_other _ _ _ z hzw] at hz
                  exact Or.inr (Or.inr ⟨hzl, hzw, hz⟩)
            have hcontraX : ∀ z, symOf ps z = some Sym.X → z ≠ li → z ≠ wi → False := by
              intro z hzX hzl hzw
              cases w
              · exact hzw (hx z wi hzX hwiP)
              · rcases hliK.2 with hliX | hliO
                · exact hzl (hx z li hzX hliX)
                · exact hlwne (ho li wi hliO hwiP)
            have hcontraO : ∀ z, symOf ps z = some Sym.O → z ≠ li → z ≠ wi → False := by
              intro z hzO hzl hzw
              cases w
              · rcases hliK.2 with hliX | hliO
                · exact hlwne (hx li wi hliX hwiP)
                · exact hzl (ho z li hzO hliO)
              · exact hzw (ho z wi hzO hwiP)
            constructor
            · intro u v hu hv
              rcases hchar u Sym.X hu with ⟨hul, hs⟩ | ⟨hul, huw, _⟩ | ⟨hul, huw, hu2⟩
              · exact absurd hs (by decide)
              · rcases hchar v Sym.X hv with ⟨hvl, hs⟩ | ⟨hvl, hvw, _⟩ | ⟨hvl, hvw, hv2⟩
                · exact absurd hs (by decide)
                · rw [huw, hvw]
                · exact (hcontraX v hv2 hvl hvw).elim
              · exact (hcontraX u hu2 hul huw).elim
            · intro u v hu hv
              rcases hchar u Sym.O hu with ⟨hul, _⟩ | ⟨_, _, hs⟩ | ⟨hul, huw, hu2⟩
              · rcases hchar v Sym.O hv with ⟨hvl, _⟩ | ⟨_, _, hs⟩ | ⟨hvl, hvw, hv2⟩
                · rw [hul, hvl]
                · exact absurd hs (by decide)
                · exact (hcontraO v hv2 hvl hvw).elim
              · exact absurd hs (by decide)
              · exact (hcontraO u hu2 hul huw).elim
  · rw [if_neg hlen]
    exact ⟨hx, ho⟩

end TicTacToe

namespace TicTacToe

theorem join_spectator (r : RoomState) (uid sid : String)
    (hnew : alookup r.players uid = none)
    (hX : ∃ u, symOf r.players u = some Sym.X)
    (hO : ∃ u, symOf r.players u = some Sym.O) :
    alookup (joinCore r uid sid).players uid = some ⟨none, sid⟩ := by
  obtain ⟨ux, hux⟩ := hX
  obtain ⟨uo, huo⟩ := hO
  have hXmem := symOf_mem_symbols hux
  have hOmem := symOf_mem_symbols huo
  unfold joinCore
  rw [hnew]
  dsimp only
  rw [if_neg (not_not_intro hXmem), if_neg (not_not_intro hOmem)]
  rw [alookup_append_of_none _ hnew]
  simp [alookup]

theorem reachable_inv (r : RoomState) (h : Reachable r) :
    AtMostOne r.players Sym.X ∧ AtMostOne r.players Sym.O := by
  induction h with
  | init =>
    constructor <;> intro u v hu hv <;> simp [symOf, alookup, emptyState] at hu
  | join r uid sid hr ih => exact atMostOne_join r uid sid ih.1 ih.2
  | move r r2 uid idx hr hm ih =>
    rw [(moveCore_frame hm).1]
    exact ih
  | reset r r2 uid hr hm ih =>
    unfold resetCore at hm
    by_cases had : r.adminId = some uid
    · rw [if_pos had] at hm
      injection hm with hm
      subst hm
      exact rotate_atMostOne r.players r.winner ih.1 ih.2
    · rw [if_neg had] at hm
      exact Option.noConfusion hm
  | leave r uid hr ih =>
    have hp : (leaveCore r uid).players = eraseKey r.players uid := rfl
    rw [hp]
    exact ⟨erase_atMostOne uid ih.1, erase_atMostOne uid ih.2⟩

/-- C9: in every room state reachable from the fresh state by join, move,
reset and leave, at most one participant holds X and at most one holds O; and
whenever both symbols are held, a further first-time joiner is stored as a
spectator (null symbol). -/
theorem role_uniqueness_invariant (r : RoomState) (h : Reachable r) :
    AtMostOne r.players Sym.X ∧ AtMostOne r.players Sym.O ∧
    (∀ uid sid, alookup r.players uid = none →
      (∃ u, symOf r.players u = some Sym.X) →
      (∃ u2, symOf r.players u2 = some Sym.O) →
      alookup (joinCore r uid sid).players uid = some ⟨none, sid⟩) :=
  ⟨(reachable_inv r h).1, (reachable_inv r h).2,
    fun uid sid hnew hX hO => join_spectator r uid sid hnew hX hO⟩

theorem role_uniqueness_witness : AtMostOne c9state.players Sym.X :=
  (role_uniqueness_invariant c9state
    (Reachable.join _ "c" "s3"
      (Reachable.join _ "b" "s2"
        (Reachable.join _ "a" "s1" Reachable.init)))).1

end TicTacToe
